import Mathlib

/-!
Shallow embedding of the condition-compilation core of the
`supabase-typed-query` repository (`src/query/QueryBuilder.ts`, the
variant with NOT-conditions and `neq: null` handling).

The builder drives an external row-store client by issuing a sequence of
filter-building calls (`select`, `match`, `eq`, `is`, `in`, `not`, `or`,
`order`, `range`, `limit`).  We model a query handle as the list of calls
issued on it, and translate `applyCondition`, `applyOrConditions`,
`buildSupabaseQuery` and the terminal methods (`one`, `many`, `first` and
their throwing variants) into pure Lean functions over that call trace.

JavaScript dynamic values are modelled by the inductive `Value`; reference
values (dates, arrays, plain objects) carry a reference id, and strict
equality (`===`) on them is reference identity, as in the source runtime.
-/

namespace STQ

/-- A JS runtime value as it flows through the query builder.  `vundefined`
is `undefined` (also the result of reading an absent object key). -/
inductive Value where
  | vstr (s : String)
  | vnum (n : Int)
  | vbool (b : Bool)
  | vnull
  | vundefined
  | vdate (ref : Nat)
  | varr (ref : Nat) (elems : List Value)
  | vobj (ref : Nat) (fields : List (String × Value))

/-- A JS object, as an insertion-ordered association list (keys unique in
any object produced by the runtime). -/
abbrev Obj := List (String × Value)

/-- JS truthiness. -/
def truthy : Value → Bool
  | .vstr s => s != ""
  | .vnum n => n != 0
  | .vbool b => b
  | .vnull => false
  | .vundefined => false
  | .vdate _ => true
  | .varr _ _ => true
  | .vobj _ _ => true

/-- JS strict equality (`===`): structural on primitives, reference
identity on dates, arrays and objects. -/
def jsEq : Value → Value → Bool
  | .vstr a, .vstr b => a == b
  | .vnum a, .vnum b => a == b
  | .vbool a, .vbool b => a == b
  | .vnull, .vnull => true
  | .vundefined, .vundefined => true
  | .vdate i, .vdate j => i == j
  | .varr i _, .varr j _ => i == j
  | .vobj i _, .vobj j _ => i == j
  | _, _ => false

def isNull : Value → Bool
  | .vnull => true
  | _ => false

def isUndefinedV : Value → Bool
  | .vundefined => true
  | _ => false

/-- Property read `o[k]`: the first entry with key `k`, or `undefined`. -/
def jsGet (o : Obj) (k : String) : Value :=
  match o.find? (fun e => e.1 == k) with
  | some e => e.2
  | none => .vundefined

/-- Property write `o[k] = v`: updates the entry in place if the key
exists, otherwise appends it (JS insertion-order semantics). -/
def setKey (o : Obj) (k : String) (v : Value) : Obj :=
  if o.any (fun e => e.1 == k) then
    o.map (fun e => if e.1 == k then (k, v) else e)
  else
    o ++ [(k, v)]

/-- Object spread `{...a, ...b}`: entries of `b` written over `a` in
order, so `b` wins on key collision. -/
def mergeObj (a b : Obj) : Obj :=
  b.foldl (fun acc e => setKey acc e.1 e.2) a

/-- The fields of a plain object; a non-object spreads/contributes no
fields (string index spreading is not exercised by this code). -/
def objFields : Value → Obj
  | .vobj _ fs => fs
  | _ => []

/-- `ops.k !== undefined`. -/
def opDefined (fs : Obj) (k : String) : Bool :=
  !(isUndefinedV (jsGet fs k))

/-- `${v}` for a non-array value. -/
def primDisplay : Value → String
  | .vstr s => s
  | .vnum n => toString n
  | .vbool b => toString b
  | .vnull => "null"
  | .vundefined => "undefined"
  | .vdate r => "date:" ++ toString r
  | .varr _ _ => "<array>"
  | .vobj _ _ => "[object Object]"

/-- An element in an array's display: `null`/`undefined` render empty. -/
def arrElemDisplay : Value → String
  | .vnull => ""
  | .vundefined => ""
  | v => primDisplay v

/-- `${value}` template-literal display, as used when serializing the OR
filter mini-language (arrays join their elements with commas; one level
of array nesting is modelled, which is all this code exercises). -/
def toDisplay : Value → String
  | .varr _ vs => String.intercalate "," (vs.map arrElemDisplay)
  | v => primDisplay v

/-- One call issued on the backend table handle. -/
inductive Call where
  | fromTable (schema : Option String) (table : String)
  | select (cols : String)
  | matchEq (fields : Obj)
  | eq (col : String) (v : Value)
  | neq (col : String) (v : Value)
  | gt (col : String) (v : Value)
  | gte (col : String) (v : Value)
  | lt (col : String) (v : Value)
  | lte (col : String) (v : Value)
  | like (col : String) (pat : Value)
  | ilike (col : String) (pat : Value)
  | isF (col : String) (v : Value)
  | inF (col : String) (v : Value)
  | notF (col : String) (op : String) (v : Value)
  | orF (expr : String)
  | order (col : String) (ascending nullsFirst : Option Bool)
  | range (lo hi : Int)
  | limit (n : Int)

/-- `not` sub-conditions of a `QueryCondition` (`not.is` / `not.in`). -/
structure NotCond where
  is : Option Obj := none
  inVals : Option Obj := none

/-- A `QueryCondition`: one OR-branch.  `whereF` is the `where` object
(equality fields, possibly holding inline operator bundles and the
top-level `gt/gte/lt/lte/neq/like/ilike` shorthand objects). -/
structure Cond where
  whereF : Obj := []
  is : Option Obj := none
  wherein : Option Obj := none
  gt : Option Obj := none
  gte : Option Obj := none
  lt : Option Obj := none
  lte : Option Obj := none
  neq : Option Obj := none
  like : Option Obj := none
  ilike : Option Obj := none
  not : Option NotCond := none

/-- Tables exempt from soft-delete handling; empty in the open-source
source (`TABLES_WITHOUT_DELETED = new Set([])`). -/
def tablesWithoutDeleted : List String := []

/-- The soft-delete filter section, shared verbatim by the single- and
multi-condition paths. -/
def sdCalls (table : String) (mode : Option String) : List Call :=
  if tablesWithoutDeleted.contains table then []
  else if mode == some "exclude" then [Call.isF "deleted" Value.vnull]
  else if mode == some "only" then [Call.notF "deleted" "is" Value.vnull]
  else []

/-- The seven operator keys destructured off the top of the `where`
object before per-field processing. -/
def opKeys : List String := ["gt", "gte", "lt", "lte", "neq", "like", "ilike"]

/-- The `...rest` of the `where` object after the top-level operator
shorthand keys are destructured away. -/
def restOf (w : Obj) : Obj :=
  w.filter (fun e => !(opKeys.contains e.1))

/-- `if (whereGt) extractedOperators.gt = whereGt`: the shorthand bucket
seeded from a truthy top-level operator object. -/
def shorthand (w : Obj) (k : String) : Obj :=
  let v := jsGet w k
  if truthy v then objFields v else []

/-- The duck-type test for an inline operator bundle:
`value && typeof value === "object" && !Array.isArray(value) &&
!(value instanceof Date)` — in this model, a (necessarily truthy) plain
object. -/
def isBundleV (v : Value) : Bool :=
  truthy v && (v matches Value.vobj _ _)

/-- `!ops.gte && !ops.gt && ... && !ops.is`: no recognized operator key
holds a truthy value, so the whole object is kept as a literal equality. -/
def allPresentFalsy (fs : Obj) : Bool :=
  !truthy (jsGet fs "gte") && !truthy (jsGet fs "gt") &&
  !truthy (jsGet fs "lte") && !truthy (jsGet fs "lt") &&
  !truthy (jsGet fs "neq") && !truthy (jsGet fs "like") &&
  !truthy (jsGet fs "ilike") && !truthy (jsGet fs "in") &&
  !truthy (jsGet fs "is")

/-- State threaded through the per-field pass over the `where` object:
the literal equalities kept for `match`, the seven extracted operator
buckets, and the (possibly mutated) `wherein` / `is` maps of the
condition object. -/
structure ExtractState where
  processedWhere : Obj
  exGt : Obj
  exGte : Obj
  exLt : Obj
  exLte : Obj
  exNeq : Obj
  exLike : Obj
  exIlike : Obj
  whereinSt : Option Obj
  isSt : Option Obj

/-- `if (ops.k !== undefined) bucket = {...bucket, [key]: ops.k}`. -/
def updBucket (bucket : Obj) (fs : Obj) (op : String) (k : String) : Obj :=
  if opDefined fs op then setKey bucket k (jsGet fs op) else bucket

/-- Process one entry of the `where` rest.  An entry holding a truthy
non-array non-date object is an inline operator bundle: each recognized
operator is pulled into its bucket; an `in` / `is` key is written onto
`condition.wherein` / `condition.is` (resetting it to a fresh object
when the destructured local was undefined, since `if (!wherein)` tests
the stale local); and when every present operator value is falsy the
whole object is additionally kept as a literal equality.  Any other
entry is a literal equality. -/
def processEntry (origWhereinNone origIsNone : Bool) (st : ExtractState)
    (kv : String × Value) : ExtractState :=
  let k := kv.1
  let v := kv.2
  if isBundleV v then
    let fs := objFields v
    { processedWhere :=
        if allPresentFalsy fs then setKey st.processedWhere k v else st.processedWhere
      exGt := updBucket st.exGt fs "gt" k
      exGte := updBucket st.exGte fs "gte" k
      exLt := updBucket st.exLt fs "lt" k
      exLte := updBucket st.exLte fs "lte" k
      exNeq := updBucket st.exNeq fs "neq" k
      exLike := updBucket st.exLike fs "like" k
      exIlike := updBucket st.exIlike fs "ilike" k
      whereinSt :=
        if opDefined fs "in" then
          some (if origWhereinNone then [(k, jsGet fs "in")]
                else setKey (st.whereinSt.getD []) k (jsGet fs "in"))
        else st.whereinSt
      isSt :=
        if opDefined fs "is" then
          some (if origIsNone then [(k, jsGet fs "is")]
                else setKey (st.isSt.getD []) k (jsGet fs "is"))
        else st.isSt }
  else
    { st with processedWhere := setKey st.processedWhere k v }

/-- Initial pass state: empty literal map, buckets seeded from the
top-level shorthand objects, `wherein` / `is` aliasing the condition's
own maps. -/
def initState (c : Cond) : ExtractState :=
  { processedWhere := []
    exGt := shorthand c.whereF "gt"
    exGte := shorthand c.whereF "gte"
    exLt := shorthand c.whereF "lt"
    exLte := shorthand c.whereF "lte"
    exNeq := shorthand c.whereF "neq"
    exLike := shorthand c.whereF "like"
    exIlike := shorthand c.whereF "ilike"
    whereinSt := c.wherein
    isSt := c.is }

/-- The full operator-extraction pass over the condition's `where`. -/
def extractedState (c : Cond) : ExtractState :=
  (restOf c.whereF).foldl (processEntry c.wherein.isNone c.is.isNone) (initState c)

/-- `{...gt, ...extractedOperators.gt}` and friends: a merged bucket,
extracted entries written over the explicitly supplied ones. -/
def mergedGt (c : Cond) : Obj := mergeObj (c.gt.getD []) (extractedState c).exGt
def mergedGte (c : Cond) : Obj := mergeObj (c.gte.getD []) (extractedState c).exGte
def mergedLt (c : Cond) : Obj := mergeObj (c.lt.getD []) (extractedState c).exLt
def mergedLte (c : Cond) : Obj := mergeObj (c.lte.getD []) (extractedState c).exLte
def mergedNeq (c : Cond) : Obj := mergeObj (c.neq.getD []) (extractedState c).exNeq
def mergedLike (c : Cond) : Obj := mergeObj (c.like.getD []) (extractedState c).exLike
def mergedIlike (c : Cond) : Obj := mergeObj (c.ilike.getD []) (extractedState c).exIlike

/-- The `wherein` fold: guarded by the destructured (pre-extraction)
local, but iterating the condition's current map, which aliases the
local when the local was defined. -/
def inCallsOf (c : Cond) : List Call :=
  match c.wherein with
  | none => []
  | some _ => ((extractedState c).whereinSt.getD []).map (fun e => Call.inF e.1 e.2)

/-- The `is` fold, with the same stale-local guard. -/
def isCallsOf (c : Cond) : List Call :=
  match c.is with
  | none => []
  | some _ => ((extractedState c).isSt.getD []).map (fun e => Call.isF e.1 e.2)

/-- `neq` application: `neq: null` compiles to a negated IS. -/
def neqCall (e : String × Value) : Call :=
  if isNull e.2 then Call.notF e.1 "is" Value.vnull else Call.neq e.1 e.2

/-- `applyCondition` (single-branch compilation), as the sequence of
calls issued on the handle together with the condition object as left
after the pass (its `wherein` / `is` may have been mutated). -/
def applyCondition (table : String) (mode : Option String) (c : Cond) :
    List Call × Cond :=
  let st := extractedState c
  let calls :=
    [Call.select "*", Call.matchEq st.processedWhere]
    ++ sdCalls table mode
    ++ inCallsOf c
    ++ isCallsOf c
    ++ (mergedGt c).map (fun e => Call.gt e.1 e.2)
    ++ (mergedGte c).map (fun e => Call.gte e.1 e.2)
    ++ (mergedLt c).map (fun e => Call.lt e.1 e.2)
    ++ (mergedLte c).map (fun e => Call.lte e.1 e.2)
    ++ (mergedNeq c).map neqCall
    ++ (mergedLike c).map (fun e => Call.like e.1 e.2)
    ++ (mergedIlike c).map (fun e => Call.ilike e.1 e.2)
    ++ (match c.not with
        | some n => (n.is.getD []).map (fun e => Call.notF e.1 "is" e.2)
        | none => [])
    ++ (match c.not with
        | some n => (n.inVals.getD []).map (fun e => Call.notF e.1 "in" e.2)
        | none => [])
  (calls, { c with wherein := st.whereinSt, is := st.isSt })

/-! ### Multi-condition (OR) compilation -/

/-- The `(column, value)` pairs of the first branch's `where` whose value
is strictly equal (`===`) to that column's value in every branch
(`condition.where[key] === value`, reading absent keys as `undefined`). -/
def commonPairs (cs : List Cond) : Obj :=
  match cs with
  | [] => []
  | c0 :: _ => c0.whereF.filter (fun e => cs.all (fun c => jsEq (jsGet c.whereF e.1) e.2))

/-- Each branch rebuilt as `{where: copy minus common keys, is, wherein,
not}` — the comparison and pattern buckets are not carried over. -/
def varyingConds (cs : List Cond) : List Cond :=
  cs.map (fun c =>
    { whereF := c.whereF.filter (fun e => !((commonPairs cs).any (fun p => p.1 == e.1)))
      is := c.is
      wherein := c.wherein
      not := c.not })

/-- The AND-filter a common pair compiles to: `eq`, or `is null` when
the common value is `null`. -/
def commonCallOf (e : String × Value) : Call :=
  if isNull e.2 then Call.isF e.1 Value.vnull else Call.eq e.1 e.2

/-- The shared AND filters: one `eq` per common pair, or `is null` when
the common value is `null`. -/
def commonCalls (cs : List Cond) : List Call :=
  (commonPairs cs).map commonCallOf

/-- `Array.prototype.join(sep)`. -/
def jsJoin (sep : String) : List String → String
  | [] => ""
  | x :: xs => xs.foldl (fun acc s => acc ++ sep ++ s) x

/-- `"v"` with template-literal display. -/
def quoteD (v : Value) : String := "\"" ++ toDisplay v ++ "\""

/-- A residual `where` entry in a branch fragment. -/
def wherePart (e : String × Value) : String :=
  if isNull e.2 then e.1 ++ ".is.null" else e.1 ++ ".eq." ++ quoteD e.2

/-- An `is` entry in a branch fragment. -/
def isPart (e : String × Value) : String :=
  if isNull e.2 then e.1 ++ ".is.null" else e.1 ++ ".is." ++ toDisplay e.2

/-- A `wherein` entry in a branch fragment: only truthy non-empty arrays
contribute a clause. -/
def whereinPart (e : String × Value) : Option String :=
  match e.2 with
  | .varr _ vs =>
    if vs.length > 0 then
      some (e.1 ++ ".in.(" ++ jsJoin "," (vs.map quoteD) ++ ")")
    else none
  | _ => none

/-- A comparison-bucket entry in a branch fragment (unquoted operand). -/
def cmpPart (op : String) (e : String × Value) : String :=
  e.1 ++ "." ++ op ++ "." ++ toDisplay e.2

/-- A `neq` entry in a branch fragment; `neq: null` is the deprecated
sugar for `not.is.null`. -/
def neqPart (e : String × Value) : String :=
  if isNull e.2 then e.1 ++ ".not.is.null" else e.1 ++ ".neq." ++ quoteD e.2

/-- A `not.is` entry in a branch fragment. -/
def notIsPart (e : String × Value) : String :=
  if isNull e.2 then e.1 ++ ".not.is.null" else e.1 ++ ".not.is." ++ toDisplay e.2

/-- A `not.in` entry in a branch fragment: only truthy non-empty arrays
contribute a clause. -/
def notInPart (e : String × Value) : Option String :=
  match e.2 with
  | .varr _ vs =>
    if vs.length > 0 then
      some (e.1 ++ ".not.in.(" ++ jsJoin "," (vs.map quoteD) ++ ")")
    else none
  | _ => none

/-- The clause list serialized for one branch, in source order: residual
`where`, `is`, `wherein`, the four ordering buckets, `neq`, `like`,
`ilike`, then `not.is` and `not.in`. -/
def branchParts (c : Cond) : List String :=
  c.whereF.map wherePart
  ++ (c.is.getD []).map isPart
  ++ (c.wherein.getD []).filterMap whereinPart
  ++ (c.gt.getD []).map (cmpPart "gt")
  ++ (c.gte.getD []).map (cmpPart "gte")
  ++ (c.lt.getD []).map (cmpPart "lt")
  ++ (c.lte.getD []).map (cmpPart "lte")
  ++ (c.neq.getD []).map neqPart
  ++ (c.like.getD []).map (cmpPart "like")
  ++ (c.ilike.getD []).map (cmpPart "ilike")
  ++ (match c.not with
      | some n => (n.is.getD []).map notIsPart ++ (n.inVals.getD []).filterMap notInPart
      | none => [])

/-- One branch's comma-joined filter-language fragment. -/
def branchFrag (c : Cond) : String := jsJoin "," (branchParts c)

/-- The OR section: nothing when every varying branch's residual `where`
is empty (the early return), otherwise the non-empty branch fragments
joined into a single `or` call (none if all fragments are empty). -/
def orSection (cs : List Cond) : List Call :=
  let varying := varyingConds cs
  if varying.all (fun c => c.whereF.isEmpty) then []
  else
    let frags := (varying.map branchFrag).filter (fun s => s.length > 0)
    if frags.length > 0 then [Call.orF (jsJoin "," frags)] else []

/-- `applyOrConditions`: select, shared soft-delete filter, the common
AND filters, then the OR section.  The branch conditions themselves are
only copied, never mutated. -/
def applyOrConditions (table : String) (mode : Option String) (cs : List Cond) :
    List Call :=
  [Call.select "*"] ++ sdCalls table mode ++ commonCalls cs ++ orSection cs

/-! ### buildSupabaseQuery: ordering and pagination -/

/-- `order` parameter: `(column, {ascending?, nullsFirst?})`. -/
structure OrderSpec where
  col : String
  ascending : Option Bool := none
  nullsFirst : Option Bool := none

/-- A `QueryBuilderConfig` as held by one chain value. -/
structure Config where
  table : String
  conditions : List Cond
  order : Option OrderSpec := none
  limit : Option Int := none
  offset : Option Int := none
  softDeleteMode : Option String := none
  schema : Option String := none

/-- `Number.MAX_SAFE_INTEGER`. -/
def maxSafeInteger : Int := 9007199254740991

/-- `if (limit)`: the limit is set and truthy (0 is falsy). -/
def truthyNum : Option Int → Bool
  | some n => n != 0
  | none => false

/-- The pagination tail of the compiled query: `range` for
limit-and-offset, `limit` for limit alone, `range` up to the
representable-integer ceiling for offset alone. -/
def paginationCalls (limit offset : Option Int) : List Call :=
  if truthyNum limit && offset.isSome then
    [Call.range (offset.getD 0) (offset.getD 0 + limit.getD 0 - 1)]
  else if truthyNum limit then
    [Call.limit (limit.getD 0)]
  else if offset.isSome then
    [Call.range (offset.getD 0) maxSafeInteger]
  else []

/-- The ordering section. -/
def orderCalls (o : Option OrderSpec) : List Call :=
  match o with
  | some s => [Call.order s.col s.ascending s.nullsFirst]
  | none => []

/-- The condition section of the compiled query, together with the
condition list as left after compilation (single-branch compilation may
mutate its condition). -/
def conditionCalls (cfg : Config) : List Call × List Cond :=
  match cfg.conditions with
  | [c] =>
    let r := applyCondition cfg.table cfg.softDeleteMode c
    (r.1, [r.2])
  | cs => (applyOrConditions cfg.table cfg.softDeleteMode cs, cs)

/-- `buildSupabaseQuery`: base handle, conditions, ordering, pagination;
returns the call trace and the configuration as left after compilation. -/
def buildSupabaseQuery (cfg : Config) : List Call × Config :=
  let r := conditionCalls cfg
  ([Call.fromTable cfg.schema cfg.table] ++ r.1
     ++ orderCalls cfg.order ++ paginationCalls cfg.limit cfg.offset,
   { cfg with conditions := r.2 })

/-! ### Terminal execution semantics -/

/-- How the compiled query is executed: `single` for `query.single()`
(used by `one()`), `list` for a bare await (used by `many()`). -/
inductive ExecMode where
  | single
  | list
deriving DecidableEq

/-- The backend interaction a terminal method performs: the compiled
call trace and the execution mode. -/
structure Request where
  calls : List Call
  mode : ExecMode

/-- `one()` executes the compiled query in single-row mode. -/
def oneRequest (cfg : Config) : Request :=
  ⟨(buildSupabaseQuery cfg).1, ExecMode.single⟩

/-- `many()` executes the compiled query in list mode. -/
def manyRequest (cfg : Config) : Request :=
  ⟨(buildSupabaseQuery cfg).1, ExecMode.list⟩

/-- `first()` is `many()` on a builder over the same configuration, so
its backend interaction is exactly `many()`'s. -/
def firstRequest (cfg : Config) : Request :=
  manyRequest cfg

/-- `many()`'s result handling: propagate the backend error, otherwise
apply the accumulated client-side filter to the rows. -/
def runMany {ε α : Type} (resp : Except ε (List α)) (filterFn : Option (α → Bool)) :
    Except ε (List α) :=
  match resp with
  | .error e => .error e
  | .ok rows => .ok (match filterFn with | some p => rows.filter p | none => rows)

/-- `one()`'s result handling: propagate the backend error; a row
failing the client-side filter is treated as "no row". -/
def runOne {ε α : Type} (resp : Except ε α) (filterFn : Option (α → Bool)) :
    Except ε (Option α) :=
  match resp with
  | .error e => .error e
  | .ok r => .ok (if (match filterFn with | some p => p r | none => true) then some r else none)

/-- `first()`'s result handling: `many()` then the head of the list
(`list.isEmpty ? Option.none : Option(list.head)`). -/
def runFirst {ε α : Type} (resp : Except ε (List α)) (filterFn : Option (α → Bool)) :
    Except ε (Option α) :=
  (runMany resp filterFn).map (fun l => if l.isEmpty then none else l.head?)

/-- Modelled from the spec: `first()` as "run `many()` and take the head
of the resulting list" — the refinement target C7 compares `runFirst`
against. -/
def firstSpec {ε α : Type} (resp : Except ε (List α)) (filterFn : Option (α → Bool)) :
    Except ε (Option α) :=
  (runMany resp filterFn).map List.head?

/-- What a throwing terminal variant throws: the unwrapped backend error,
or the synthesized domain "not found" error. -/
inductive Thrown (ε : Type) where
  | backend (e : ε)
  | notFound (msg : String)

/-- `oneOrThrow`: unwrap `one()`'s error by throwing, and throw the "not
found" error when it resolved to an empty Option. -/
def runOneOrThrow {ε α : Type} (table : String) (resp : Except ε α)
    (filterFn : Option (α → Bool)) : Except (Thrown ε) α :=
  match runOne resp filterFn with
  | .error e => .error (.backend e)
  | .ok none => .error (.notFound ("No record found in " ++ table))
  | .ok (some r) => .ok r

/-- `manyOrThrow`: unwrap `many()`'s error by throwing; an empty list is
returned as-is. -/
def runManyOrThrow {ε α : Type} (resp : Except ε (List α))
    (filterFn : Option (α → Bool)) : Except (Thrown ε) (List α) :=
  match runMany resp filterFn with
  | .error e => .error (.backend e)
  | .ok l => .ok l

/-- `firstOrThrow`: unwrap `first()`'s error by throwing, and throw the
"not found" error when it resolved to an empty Option. -/
def runFirstOrThrow {ε α : Type} (table : String) (resp : Except ε (List α))
    (filterFn : Option (α → Bool)) : Except (Thrown ε) α :=
  match runFirst resp filterFn with
  | .error e => .error (.backend e)
  | .ok none => .error (.notFound ("No records found in " ++ table))
  | .ok (some r) => .ok r

/-! ### Observation helpers on call traces -/

/-- Is this a membership (`in`) filter call? -/
def isInCall : Call → Bool
  | .inF _ _ => true
  | _ => false

/-- Is this an `is` filter call? -/
def isIsCall : Call → Bool
  | .isF _ _ => true
  | _ => false

/-- Is this a greater-than filter call? -/
def isGtCall : Call → Bool
  | .gt _ _ => true
  | _ => false

/-- Is this a pagination call (`range` or `limit`)? -/
def isPageCall : Call → Bool
  | .range _ _ => true
  | .limit _ => true
  | _ => false

/-- Does this call target column `k` as an equality/`is` AND filter (the
shapes produced for common pairs)? -/
def colTargets (k : String) : Call → Bool
  | .eq c _ => c == k
  | .isF c _ => c == k
  | _ => false

/-- A `where` entry holding an inline bundle that carries an `in` key
(the entries that mutate `condition.wherein` during extraction). -/
def entryHasInOp (e : String × Value) : Bool :=
  isBundleV e.2 && opDefined (objFields e.2) "in"

/-- Claim-side reading of "the branch carries no sub-condition besides
its equality fields". -/
def noOtherSub (c : Cond) : Bool :=
  c.is.isNone && c.wherein.isNone && c.gt.isNone && c.gte.isNone &&
  c.lt.isNone && c.lte.isNone && c.neq.isNone && c.like.isNone &&
  c.ilike.isNone && c.not.isNone

/-! ### Concrete inputs used by the per-claim counterexamples and
witnesses -/

/-- C1 witness branches: `{status: "published", author: "A"}` OR
`{status: "published", author: "B"}`. -/
def condPubA : Cond :=
  { whereF := [("status", Value.vstr "published"), ("author", Value.vstr "A")] }

def condPubB : Cond :=
  { whereF := [("status", Value.vstr "published"), ("author", Value.vstr "B")] }

/-- C2 counterexample branches: common `a = 1`, first branch also has an
`is` sub-condition. -/
def condAIs : Cond :=
  { whereF := [("a", Value.vnum 1)], is := some [("b", Value.vnull)] }

def condA : Cond :=
  { whereF := [("a", Value.vnum 1)] }

/-- C2 witness branches: distinct equality fields, first branch also has
a comparison bucket. -/
def condAGt : Cond :=
  { whereF := [("a", Value.vnum 1)], gt := some [("c", Value.vnum 5)] }

def condB : Cond :=
  { whereF := [("b", Value.vnum 2)] }

/-- C3 failing input: inline `in` bundle, no dedicated `wherein` map. -/
def condInlineIn : Cond :=
  { whereF := [("status",
      Value.vobj 0 [("in", Value.varr 1 [Value.vstr "draft", Value.vstr "published"])])] }

/-- C3 failing input, `is` variant: inline `is` bundle, no dedicated
`is` map. -/
def condInlineIs : Cond :=
  { whereF := [("published_at", Value.vobj 0 [("is", Value.vnull)])] }

/-- C4 failing input: a chain configuration whose single condition holds
an inline `in` bundle and no dedicated `wherein` map. -/
def cfgInlineIn : Config :=
  { table := "posts"
    conditions := [{ whereF := [("id", Value.vobj 0 [("in", Value.varr 1 [Value.vstr "id1"])])] }] }

/-- C5 counterexample: explicit `gt: {age: 5}` colliding with the inline
bundle `where: {age: {gt: 10}}`. -/
def condGtCollide : Cond :=
  { whereF := [("age", Value.vobj 0 [("gt", Value.vnum 10)])]
    gt := some [("age", Value.vnum 5)] }

/-- C9 counterexample: a dedicated `wherein` map with an empty list. -/
def condEmptyIn : Cond :=
  { wherein := some [("tags", Value.varr 0 [])] }

/-- C9 witness condition: dedicated `wherein` with an empty and a
non-empty list, nothing to extract. -/
def condTwoIn : Cond :=
  { wherein := some [("tags", Value.varr 0 []), ("role", Value.varr 1 [Value.vstr "admin"])] }

/-- C10 counterexample: `where: {active: {is: false}}` — a recognized key
whose present value is falsy, with no dedicated `is` map. -/
def condIsFalse : Cond :=
  { whereF := [("active", Value.vobj 0 [("is", Value.vbool false)])] }

/-- C10 witness: `where: {n: {gt: 0}}` — a falsy `gt` bundle. -/
def condGtZero : Cond :=
  { whereF := [("n", Value.vobj 0 [("gt", Value.vnum 0)])] }

/-- C7/C8 witness configuration. -/
def cfgPosts : Config :=
  { table := "posts"
    conditions := [{ whereF := [("status", Value.vstr "published")] }] }

/-- C6 witness configuration: `limit(10).offset(20)`. -/
def cfgPage : Config :=
  { table := "posts"
    conditions := [{ whereF := [] }]
    limit := some 10
    offset := some 20 }


/-! ### Association-list lemmas -/

theorem jsGet_cons (e : String × Value) (l : Obj) (k : String) :
    jsGet (e :: l) k = if e.1 == k then e.2 else jsGet l k := by
  cases he : e.1 == k <;> simp [jsGet, List.find?_cons, he]

theorem jsGet_map_setKey_self (o : Obj) (k : String) (v : Value)
    (h : o.any (fun e => e.1 == k) = true) :
    jsGet (o.map (fun e => if e.1 == k then (k, v) else e)) k = v := by
  induction o with
  | nil => simp at h
  | cons e tl ih =>
    cases he : e.1 == k with
    | true =>
      rw [List.map_cons, if_pos he, jsGet_cons]
      simp
    | false =>
      simp only [List.any_cons, he, Bool.false_or] at h
      rw [List.map_cons, if_neg (by simp [he]), jsGet_cons, if_neg (by simp [he])]
      exact ih h

theorem jsGet_append_single_self (o : Obj) (k : String) (v : Value)
    (h : o.any (fun e => e.1 == k) = false) :
    jsGet (o ++ [(k, v)]) k = v := by
  induction o with
  | nil => simp [jsGet]
  | cons e tl ih =>
    simp only [List.any_cons, Bool.or_eq_false_iff] at h
    rw [List.cons_append, jsGet_cons, if_neg (by simp [h.1])]
    exact ih h.2

theorem jsGet_setKey_self (o : Obj) (k : String) (v : Value) :
    jsGet (setKey o k v) k = v := by
  unfold setKey
  split
  · exact jsGet_map_setKey_self o k v (by assumption)
  · rename_i h
    rw [Bool.not_eq_true] at h
    exact jsGet_append_single_self o k v h

theorem jsGet_map_setKey_ne (o : Obj) (k : String) (v : Value) (q : String)
    (h : (k == q) = false) :
    jsGet (o.map (fun e => if e.1 == k then (k, v) else e)) q = jsGet o q := by
  induction o with
  | nil => rfl
  | cons e tl ih =>
    cases he : e.1 == k with
    | true =>
      have h1 : e.1 = k := by simpa [beq_iff_eq] using he
      rw [List.map_cons, if_pos he, jsGet_cons, jsGet_cons,
        if_neg (by simp [h]), if_neg (by simp [h1, h])]
      exact ih
    | false =>
      rw [List.map_cons, if_neg (by simp [he]), jsGet_cons, jsGet_cons]
      by_cases ht : (e.1 == q) = true
      · rw [if_pos ht, if_pos ht]
      · rw [if_neg ht, if_neg ht]
        exact ih

theorem jsGet_append_single_ne (o : Obj) (k : String) (v : Value) (q : String)
    (h : (k == q) = false) :
    jsGet (o ++ [(k, v)]) q = jsGet o q := by
  induction o with
  | nil => simp [jsGet, h]
  | cons e tl ih =>
    rw [List.cons_append, jsGet_cons, jsGet_cons]
    by_cases ht : (e.1 == q) = true
    · rw [if_pos ht, if_pos ht]
    · rw [if_neg ht, if_neg ht]
      exact ih

theorem jsGet_setKey_ne (o : Obj) (k : String) (v : Value) (q : String)
    (h : (k == q) = false) : jsGet (setKey o k v) q = jsGet o q := by
  unfold setKey
  split
  · exact jsGet_map_setKey_ne o k v q h
  · exact jsGet_append_single_ne o k v q h

theorem self_mem_setKey (o : Obj) (k : String) (v : Value) :
    (k, v) ∈ setKey o k v := by
  unfold setKey
  split
  · rename_i h
    rw [List.any_eq_true] at h
    obtain ⟨e, he, hk⟩ := h
    exact List.mem_map.mpr ⟨e, he, by simp [hk]⟩
  · exact List.mem_append_right _ (by simp)

theorem mem_setKey_of_ne (o : Obj) (k : String) (v : Value) (e : String × Value)
    (he : e ∈ o) (hne : (e.1 == k) = false) : e ∈ setKey o k v := by
  unfold setKey
  split
  · exact List.mem_map.mpr ⟨e, he, by simp [hne]⟩
  · exact List.mem_append_left _ he

theorem jsGet_mem (b : Obj) (k : String)
    (h : b.any (fun p => p.1 == k) = true) : (k, jsGet b k) ∈ b := by
  induction b with
  | nil => simp at h
  | cons e tl ih =>
    cases he : e.1 == k with
    | true =>
      rw [jsGet_cons]
      simp only [he, if_true]
      have h1 : e.1 = k := by simpa [beq_iff_eq] using he
      have hm : (e.1, e.2) ∈ e :: tl := by
        rw [Prod.mk.eta]; exact List.mem_cons_self e tl
      rwa [h1] at hm
    | false =>
      simp only [List.any_cons, he, Bool.false_or] at h
      rw [jsGet_cons]
      simp only [he, if_false]
      exact List.mem_cons_of_mem _ (ih h)

theorem beq_false_symm {a b : String} (h : (a == b) = false) : (b == a) = false := by
  simp only [Bool.eq_false_iff, ne_eq, beq_iff_eq] at h ⊢
  exact fun e => h e.symm

theorem all_keys_ne_of_not_mem (b : Obj) (k : String)
    (h : k ∉ b.map Prod.fst) : ∀ e ∈ b, (e.1 == k) = false := by
  intro e he
  rw [Bool.eq_false_iff]
  intro hq
  have h1 : e.1 = k := by simpa [beq_iff_eq] using hq
  exact h (List.mem_map.mpr ⟨e, he, h1⟩)

theorem jsGet_mergeObj_of_not_mem (a b : Obj) (k : String)
    (h : ∀ e ∈ b, (e.1 == k) = false) :
    jsGet (mergeObj a b) k = jsGet a k := by
  induction b generalizing a with
  | nil => rfl
  | cons e tl ih =>
    show jsGet (mergeObj (setKey a e.1 e.2) tl) k = jsGet a k
    rw [ih (setKey a e.1 e.2) (fun x hx => h x (List.mem_cons_of_mem _ hx))]
    exact jsGet_setKey_ne a e.1 e.2 k (h e (List.mem_cons_self _ _))

theorem jsGet_mergeObj_right (a b : Obj) (k : String)
    (hnd : (b.map Prod.fst).Nodup)
    (hk : b.any (fun p => p.1 == k) = true) :
    jsGet (mergeObj a b) k = jsGet b k := by
  induction b generalizing a with
  | nil => simp at hk
  | cons e tl ih =>
    rw [List.map_cons, List.nodup_cons] at hnd
    cases he : e.1 == k with
    | true =>
      have h1 : e.1 = k := by simpa [beq_iff_eq] using he
      have htl : ∀ x ∈ tl, (x.1 == k) = false :=
        all_keys_ne_of_not_mem tl k (h1 ▸ hnd.1)
      show jsGet (mergeObj (setKey a e.1 e.2) tl) k = _
      rw [jsGet_mergeObj_of_not_mem _ _ _ htl, jsGet_cons]
      simp only [he, if_true]
      rw [h1, jsGet_setKey_self]
    | false =>
      simp only [List.any_cons, he, Bool.false_or] at hk
      show jsGet (mergeObj (setKey a e.1 e.2) tl) k = _
      rw [jsGet_cons]
      simp only [he, if_false]
      exact ih _ hnd.2 hk

theorem mergeObj_mem_of_keys_ne (a b : Obj) (k : String) (v : Value)
    (h : ∀ e ∈ b, (e.1 == k) = false) (ha : (k, v) ∈ a) :
    (k, v) ∈ mergeObj a b := by
  induction b generalizing a with
  | nil => exact ha
  | cons x xs ih =>
    show (k, v) ∈ mergeObj (setKey a x.1 x.2) xs
    exact ih (setKey a x.1 x.2) (fun e he => h e (List.mem_cons_of_mem _ he))
      (mem_setKey_of_ne a x.1 x.2 (k, v)
        ha (beq_false_symm (h x (List.mem_cons_self _ _))))

theorem mergeObj_mem_of_nodup (a b : Obj) (k : String) (v : Value)
    (hnd : (b.map Prod.fst).Nodup) (hmem : (k, v) ∈ b) :
    (k, v) ∈ mergeObj a b := by
  induction b generalizing a with
  | nil => simp at hmem
  | cons e tl ih =>
    rw [List.map_cons, List.nodup_cons] at hnd
    rcases List.mem_cons.mp hmem with heq | htl
    · subst heq
      show (k, v) ∈ mergeObj (setKey a k v) tl
      exact mergeObj_mem_of_keys_ne _ tl k v
        (all_keys_ne_of_not_mem tl k hnd.1) (self_mem_setKey a k v)
    · exact ih _ hnd.2 htl

/-! ### Extraction-pass lemmas -/

theorem processEntry_bundle_exGt (b1 b2 : Bool) (st : ExtractState)
    (k : String) (r : Nat) (fs : Obj) :
    (processEntry b1 b2 st (k, Value.vobj r fs)).exGt = updBucket st.exGt fs "gt" k := rfl

theorem processEntry_bundle_exNeq (b1 b2 : Bool) (st : ExtractState)
    (k : String) (r : Nat) (fs : Obj) :
    (processEntry b1 b2 st (k, Value.vobj r fs)).exNeq = updBucket st.exNeq fs "neq" k := rfl

theorem processEntry_bundle_processedWhere (b1 b2 : Bool) (st : ExtractState)
    (k : String) (r : Nat) (fs : Obj) :
    (processEntry b1 b2 st (k, Value.vobj r fs)).processedWhere =
      if allPresentFalsy fs then setKey st.processedWhere k (Value.vobj r fs)
      else st.processedWhere := rfl

theorem jsGet_updBucket_ne (b fs : Obj) (op k q : String) (h : (k == q) = false) :
    jsGet (updBucket b fs op k) q = jsGet b q := by
  unfold updBucket
  split
  · exact jsGet_setKey_ne b k (jsGet fs op) q h
  · rfl

theorem processEntry_exGt_ne (b1 b2 : Bool) (st : ExtractState)
    (e : String × Value) (q : String) (h : (e.1 == q) = false) :
    jsGet (processEntry b1 b2 st e).exGt q = jsGet st.exGt q := by
  cases hb : isBundleV e.2 with
  | true =>
    simp only [processEntry, hb, if_true]
    exact jsGet_updBucket_ne st.exGt (objFields e.2) "gt" e.1 q h
  | false =>
    simp only [processEntry, hb, Bool.false_eq_true, if_false]
  
theorem processEntry_exNeq_ne (b1 b2 : Bool) (st : ExtractState)
    (e : String × Value) (q : String) (h : (e.1 == q) = false) :
    jsGet (processEntry b1 b2 st e).exNeq q = jsGet st.exNeq q := by
  cases hb : isBundleV e.2 with
  | true =>
    simp only [processEntry, hb, if_true]
    exact jsGet_updBucket_ne st.exNeq (objFields e.2) "neq" e.1 q h
  | false =>
    simp only [processEntry, hb, Bool.false_eq_true, if_false]

theorem processEntry_processedWhere_mem (b1 b2 : Bool) (st : ExtractState)
    (e : String × Value) (kv : String × Value)
    (hm : kv ∈ st.processedWhere) (h : (e.1 == kv.1) = false) :
    kv ∈ (processEntry b1 b2 st e).processedWhere := by
  have hsym := beq_false_symm h
  cases hb : isBundleV e.2 with
  | true =>
    simp only [processEntry, hb, if_true]
    by_cases hf : allPresentFalsy (objFields e.2) = true
    · simp only [hf, if_true]
      exact mem_setKey_of_ne _ _ _ kv hm hsym
    · simp only [hf, if_false]
      exact hm
  | false =>
    simp only [processEntry, hb, Bool.false_eq_true, if_false]
    exact mem_setKey_of_ne _ _ _ kv hm hsym

theorem processEntry_whereinSt_pres (b1 b2 : Bool) (st : ExtractState)
    (e : String × Value) (h : entryHasInOp e = false) :
    (processEntry b1 b2 st e).whereinSt = st.whereinSt := by
  cases hb : isBundleV e.2 with
  | true =>
    have hdef : opDefined (objFields e.2) "in" = false := by
      unfold entryHasInOp at h
      rw [hb] at h
      simpa using h
    simp only [processEntry, hb, if_true, hdef, Bool.false_eq_true, if_false]
  | false =>
    simp only [processEntry, hb, Bool.false_eq_true, if_false]

theorem foldl_exGt_ne (b1 b2 : Bool) (l : Obj) (q : String)
    (h : ∀ e ∈ l, (e.1 == q) = false) (st : ExtractState) :
    jsGet ((l.foldl (processEntry b1 b2) st).exGt) q = jsGet st.exGt q := by
  induction l generalizing st with
  | nil => rfl
  | cons e tl ih =>
    rw [List.foldl_cons]
    rw [ih (fun x hx => h x (List.mem_cons_of_mem _ hx)) _]
    exact processEntry_exGt_ne b1 b2 st e q (h e (List.mem_cons_self _ _))

theorem foldl_exNeq_ne (b1 b2 : Bool) (l : Obj) (q : String)
    (h : ∀ e ∈ l, (e.1 == q) = false) (st : ExtractState) :
    jsGet ((l.foldl (processEntry b1 b2) st).exNeq) q = jsGet st.exNeq q := by
  induction l generalizing st with
  | nil => rfl
  | cons e tl ih =>
    rw [List.foldl_cons]
    rw [ih (fun x hx => h x (List.mem_cons_of_mem _ hx)) _]
    exact processEntry_exNeq_ne b1 b2 st e q (h e (List.mem_cons_self _ _))

theorem foldl_processedWhere_mem (b1 b2 : Bool) (l : Obj) (kv : String × Value)
    (h : ∀ e ∈ l, (e.1 == kv.1) = false) (st : ExtractState)
    (hm : kv ∈ st.processedWhere) :
    kv ∈ ((l.foldl (processEntry b1 b2) st).processedWhere) := by
  induction l generalizing st with
  | nil => exact hm
  | cons e tl ih =>
    rw [List.foldl_cons]
    exact ih (fun x hx => h x (List.mem_cons_of_mem _ hx)) _
      (processEntry_processedWhere_mem b1 b2 st e kv hm (h e (List.mem_cons_self _ _)))

theorem foldl_whereinSt_pres (b1 b2 : Bool) (l : Obj)
    (h : ∀ e ∈ l, entryHasInOp e = false) (st : ExtractState) :
    (l.foldl (processEntry b1 b2) st).whereinSt = st.whereinSt := by
  induction l generalizing st with
  | nil => rfl
  | cons e tl ih =>
    rw [List.foldl_cons]
    rw [ih (fun x hx => h x (List.mem_cons_of_mem _ hx)) _]
    exact processEntry_whereinSt_pres b1 b2 st e (h e (List.mem_cons_self _ _))

/-! ### Locating a bundle entry inside the pass -/

theorem mem_restOf (w : Obj) (e : String × Value) (he : e ∈ w)
    (hop : opKeys.contains e.1 = false) : e ∈ restOf w :=
  List.mem_filter.mpr ⟨he, by rw [hop]; rfl⟩

theorem restOf_keys_nodup (w : Obj) (h : (w.map Prod.fst).Nodup) :
    ((restOf w).map Prod.fst).Nodup :=
  List.Nodup.sublist (List.Sublist.map Prod.fst (List.filter_sublist w)) h

theorem extracted_exGt_of_bundle (c : Cond) (k : String) (r : Nat) (fs : Obj)
    (hmem : (k, Value.vobj r fs) ∈ c.whereF)
    (hop : opKeys.contains k = false)
    (hnd : (c.whereF.map Prod.fst).Nodup)
    (hdef : opDefined fs "gt" = true) :
    jsGet (extractedState c).exGt k = jsGet fs "gt" := by
  have hm : (k, Value.vobj r fs) ∈ restOf c.whereF := mem_restOf _ _ hmem hop
  have hnd' := restOf_keys_nodup _ hnd
  obtain ⟨pre, post, hsplit⟩ := List.append_of_mem hm
  rw [hsplit, List.map_append, List.map_cons, List.nodup_append] at hnd'
  have hpost : ∀ e ∈ post, (e.1 == k) = false :=
    all_keys_ne_of_not_mem post k (List.nodup_cons.mp hnd'.2.1).1
  unfold extractedState
  rw [hsplit, List.foldl_append, List.foldl_cons]
  rw [foldl_exGt_ne _ _ post k hpost _]
  rw [processEntry_bundle_exGt]
  unfold updBucket
  rw [if_pos hdef]
  exact jsGet_setKey_self _ _ _

theorem extracted_exNeq_of_bundle (c : Cond) (k : String) (r : Nat) (fs : Obj)
    (hmem : (k, Value.vobj r fs) ∈ c.whereF)
    (hop : opKeys.contains k = false)
    (hnd : (c.whereF.map Prod.fst).Nodup)
    (hdef : opDefined fs "neq" = true) :
    jsGet (extractedState c).exNeq k = jsGet fs "neq" := by
  have hm : (k, Value.vobj r fs) ∈ restOf c.whereF := mem_restOf _ _ hmem hop
  have hnd' := restOf_keys_nodup _ hnd
  obtain ⟨pre, post, hsplit⟩ := List.append_of_mem hm
  rw [hsplit, List.map_append, List.map_cons, List.nodup_append] at hnd'
  have hpost : ∀ e ∈ post, (e.1 == k) = false :=
    all_keys_ne_of_not_mem post k (List.nodup_cons.mp hnd'.2.1).1
  unfold extractedState
  rw [hsplit, List.foldl_append, List.foldl_cons]
  rw [foldl_exNeq_ne _ _ post k hpost _]
  rw [processEntry_bundle_exNeq]
  unfold updBucket
  rw [if_pos hdef]
  exact jsGet_setKey_self _ _ _

theorem extracted_processedWhere_of_bundle (c : Cond) (k : String) (r : Nat) (fs : Obj)
    (hmem : (k, Value.vobj r fs) ∈ c.whereF)
    (hop : opKeys.contains k = false)
    (hnd : (c.whereF.map Prod.fst).Nodup)
    (hfal : allPresentFalsy fs = true) :
    (k, Value.vobj r fs) ∈ (extractedState c).processedWhere := by
  have hm : (k, Value.vobj r fs) ∈ restOf c.whereF := mem_restOf _ _ hmem hop
  have hnd' := restOf_keys_nodup _ hnd
  obtain ⟨pre, post, hsplit⟩ := List.append_of_mem hm
  rw [hsplit, List.map_append, List.map_cons, List.nodup_append] at hnd'
  have hpost : ∀ e ∈ post, (e.1 == k) = false :=
    all_keys_ne_of_not_mem post k (List.nodup_cons.mp hnd'.2.1).1
  unfold extractedState
  rw [hsplit, List.foldl_append, List.foldl_cons]
  refine foldl_processedWhere_mem _ _ post (k, Value.vobj r fs) hpost _ ?_
  rw [processEntry_bundle_processedWhere, if_pos hfal]
  exact self_mem_setKey _ _ _

theorem extracted_whereinSt_pres (c : Cond)
    (h : ∀ e ∈ restOf c.whereF, entryHasInOp e = false) :
    (extractedState c).whereinSt = c.wherein := by
  unfold extractedState
  rw [foldl_whereinSt_pres _ _ _ h _]
  rfl

/-! ### Common-pair lemmas (C1) -/

theorem colTargets_commonCallOf (k : String) (e : String × Value) :
    colTargets k (commonCallOf e) = (e.1 == k) := by
  unfold commonCallOf
  by_cases h : isNull e.2 = true
  · rw [if_pos h]; rfl
  · rw [if_neg h]; rfl

theorem filtered_calls_nil (l : Obj) (p : String × Value → Bool) (k : String)
    (h : ∀ e ∈ l, (e.1 == k) = false) :
    ((l.filter p).map commonCallOf).filter (colTargets k) = [] := by
  induction l with
  | nil => rfl
  | cons e tl ih =>
    have he := h e (List.mem_cons_self _ _)
    have ih' := ih (fun x hx => h x (List.mem_cons_of_mem _ hx))
    cases hp : p e with
    | true =>
      rw [List.filter_cons_of_pos hp, List.map_cons,
        List.filter_cons_of_neg (by simp [colTargets_commonCallOf, he])]
      exact ih'
    | false =>
      rw [List.filter_cons_of_neg (by simp [hp])]
      exact ih'

theorem filtered_calls_single (l : Obj) (p : String × Value → Bool)
    (k : String) (v : Value)
    (hnd : (l.map Prod.fst).Nodup) (hmem : (k, v) ∈ l) (hp : p (k, v) = true) :
    ((l.filter p).map commonCallOf).filter (colTargets k) = [commonCallOf (k, v)] := by
  induction l with
  | nil => simp at hmem
  | cons e tl ih =>
    rw [List.map_cons, List.nodup_cons] at hnd
    rcases List.mem_cons.mp hmem with heq | htl
    · have heq' : e = (k, v) := heq.symm
      subst heq'
      rw [List.filter_cons_of_pos hp, List.map_cons,
        List.filter_cons_of_pos (by simp [colTargets_commonCallOf])]
      rw [filtered_calls_nil tl p k (all_keys_ne_of_not_mem tl k (by simpa using hnd.1))]
    · have hek : (e.1 == k) = false := by
        have hk : k ∈ tl.map Prod.fst := List.mem_map.mpr ⟨(k, v), htl, rfl⟩
        rw [Bool.eq_false_iff]
        intro hq
        have h1 : e.1 = k := by simpa [beq_iff_eq] using hq
        exact hnd.1 (h1 ▸ hk)
      cases hpe : p e with
      | true =>
        rw [List.filter_cons_of_pos hpe, List.map_cons,
          List.filter_cons_of_neg (by simp [colTargets_commonCallOf, hek])]
        exact ih hnd.2 htl
      | false =>
        rw [List.filter_cons_of_neg (by simp [hpe])]
        exact ih hnd.2 htl

/-! ### Fragment-length lemmas (C2) -/

theorem jsJoin_length_ge (sep x : String) (xs : List String) :
    x.length ≤ (jsJoin sep (x :: xs)).length := by
  induction xs generalizing x with
  | nil => exact le_refl _
  | cons y ys ih =>
    have h1 : jsJoin sep (x :: y :: ys) = jsJoin sep ((x ++ sep ++ y) :: ys) := rfl
    rw [h1]
    have h2 := ih (x ++ sep ++ y)
    have h3 : x.length ≤ (x ++ sep ++ y).length := by
      rw [String.length_append, String.length_append]
      omega
    omega

theorem wherePart_length_pos (e : String × Value) : 0 < (wherePart e).length := by
  unfold wherePart
  by_cases h : isNull e.2 = true
  · rw [if_pos h, String.length_append]
    have h8 : (".is.null" : String).length = 8 := rfl
    omega
  · rw [if_neg h, String.length_append, String.length_append]
    have h4 : (".eq." : String).length = 4 := rfl
    omega

theorem branchFrag_length_pos (c : Cond) (h : c.whereF ≠ []) :
    0 < (branchFrag c).length := by
  cases hw : c.whereF with
  | nil => exact absurd hw h
  | cons e tl =>
    unfold branchFrag branchParts
    rw [hw, List.map_cons, List.cons_append]
    exact lt_of_lt_of_le (wherePart_length_pos e) (jsJoin_length_ge "," (wherePart e) _)

/-! ### No pagination call is issued by the condition sections (C6) -/

theorem sdCalls_not_page (t : String) (m : Option String) (call : Call)
    (h : call ∈ sdCalls t m) : isPageCall call = false := by
  unfold sdCalls at h
  split at h
  · simp at h
  · split at h
    · rw [List.mem_singleton] at h; subst h; rfl
    · split at h
      · rw [List.mem_singleton] at h; subst h; rfl
      · simp at h

theorem inCallsOf_not_page (c : Cond) (call : Call)
    (h : call ∈ inCallsOf c) : isPageCall call = false := by
  unfold inCallsOf at h
  rcases hc : c.wherein with _ | m
  · rw [hc] at h; simp at h
  · rw [hc] at h
    obtain ⟨e, _, rfl⟩ := List.mem_map.mp h
    rfl

theorem isCallsOf_not_page (c : Cond) (call : Call)
    (h : call ∈ isCallsOf c) : isPageCall call = false := by
  unfold isCallsOf at h
  rcases hc : c.is with _ | m
  · rw [hc] at h; simp at h
  · rw [hc] at h
    obtain ⟨e, _, rfl⟩ := List.mem_map.mp h
    rfl

theorem applyCondition_not_page (t : String) (m : Option String) (c : Cond)
    (call : Call) (h : call ∈ (applyCondition t m c).1) :
    isPageCall call = false := by
  simp only [applyCondition] at h
  rcases List.mem_append.mp h with h | h
  case inr =>
    rcases hc : c.not with _ | n
    · rw [hc] at h; simp at h
    · rw [hc] at h
      obtain ⟨e, _, rfl⟩ := List.mem_map.mp h
      rfl
  rcases List.mem_append.mp h with h | h
  case inr =>
    rcases hc : c.not with _ | n
    · rw [hc] at h; simp at h
    · rw [hc] at h
      obtain ⟨e, _, rfl⟩ := List.mem_map.mp h
      rfl
  rcases List.mem_append.mp h with h | h
  case inr =>
    obtain ⟨e, _, rfl⟩ := List.mem_map.mp h
    rfl
  rcases List.mem_append.mp h with h | h
  case inr =>
    obtain ⟨e, _, rfl⟩ := List.mem_map.mp h
    rfl
  rcases List.mem_append.mp h with h | h
  case inr =>
    obtain ⟨e, _, rfl⟩ := List.mem_map.mp h
    unfold neqCall
    split <;> rfl
  rcases List.mem_append.mp h with h | h
  case inr =>
    obtain ⟨e, _, rfl⟩ := List.mem_map.mp h
    rfl
  rcases List.mem_append.mp h with h | h
  case inr =>
    obtain ⟨e, _, rfl⟩ := List.mem_map.mp h
    rfl
  rcases List.mem_append.mp h with h | h
  case inr =>
    obtain ⟨e, _, rfl⟩ := List.mem_map.mp h
    rfl
  rcases List.mem_append.mp h with h | h
  case inr =>
    obtain ⟨e, _, rfl⟩ := List.mem_map.mp h
    rfl
  rcases List.mem_append.mp h with h | h
  case inr => exact isCallsOf_not_page c call h
  rcases List.mem_append.mp h with h | h
  case inr => exact inCallsOf_not_page c call h
  rcases List.mem_append.mp h with h | h
  case inr => exact sdCalls_not_page t m call h
  rcases List.mem_cons.mp h with rfl | h
  · rfl
  · rw [List.mem_singleton] at h; subst h; rfl

theorem applyOrConditions_not_page (t : String) (m : Option String)
    (cs : List Cond) (call : Call) (h : call ∈ applyOrConditions t m cs) :
    isPageCall call = false := by
  simp only [applyOrConditions] at h
  rcases List.mem_append.mp h with h | h
  case inr =>
    simp only [orSection] at h
    split at h
    · simp at h
    · split at h
      · rw [List.mem_singleton] at h; subst h; rfl
      · simp at h
  rcases List.mem_append.mp h with h | h
  case inr =>
    obtain ⟨e, _, rfl⟩ := List.mem_map.mp h
    unfold commonCallOf
    split <;> rfl
  rcases List.mem_append.mp h with h | h
  case inr => exact sdCalls_not_page t m call h
  rw [List.mem_singleton] at h; subst h; rfl

theorem conditionCalls_not_page (cfg : Config) (call : Call)
    (h : call ∈ (conditionCalls cfg).1) : isPageCall call = false := by
  unfold conditionCalls at h
  split at h
  · exact applyCondition_not_page _ _ _ _ h
  · exact applyOrConditions_not_page _ _ _ _ h

theorem any_of_jsGet_ne_undef (b : Obj) (k : String)
    (h : isUndefinedV (jsGet b k) = false) : b.any (fun p => p.1 == k) = true := by
  induction b with
  | nil => simp [jsGet, isUndefinedV] at h
  | cons e tl ih =>
    rw [jsGet_cons] at h
    cases he : e.1 == k with
    | true => simp [he]
    | false =>
      rw [if_neg (by simp [he])] at h
      simp only [List.any_cons, he, Bool.false_or]
      exact ih h

/-! ## Claim theorems -/

/-- C1: In multi-branch (OR) compilation, a `(column, value)` pair whose
value is strictly equal across every branch's equality-fields map is
applied exactly once as a shared AND filter on the base handle (via `eq`,
or an is-null call when the common value is `null`): among the
common-section and OR-section calls, exactly one call targets that column
as an AND filter and it is exactly the pair's compiled filter.  The pair
is removed from every branch's residual `where` before the OR fragments
are serialized, so it appears in no branch fragment; and when removing the
common pairs leaves every branch's residual `where` empty (in particular
when every branch is left fully empty), no OR call is emitted at all. -/
theorem C1_common_extraction (c0 : Cond) (rest : List Cond) (k : String) (v : Value)
    (hnd : (c0.whereF.map Prod.fst).Nodup)
    (hmem : (k, v) ∈ c0.whereF)
    (hcommon : ∀ c ∈ c0 :: rest, jsEq (jsGet c.whereF k) v = true) :
    (commonCalls (c0 :: rest)).filter (colTargets k) = [commonCallOf (k, v)]
    ∧ (∀ c' ∈ varyingConds (c0 :: rest), ∀ e ∈ c'.whereF, e.1 ≠ k)
    ∧ ((∀ c' ∈ varyingConds (c0 :: rest), c'.whereF = []) →
        orSection (c0 :: rest) = [])
    ∧ (∀ t m, applyOrConditions t m (c0 :: rest) =
        [Call.select "*"] ++ sdCalls t m ++ commonCalls (c0 :: rest)
          ++ orSection (c0 :: rest)) := by
  have hp : (fun e : String × Value =>
      (c0 :: rest).all (fun c => jsEq (jsGet c.whereF e.1) e.2)) (k, v) = true :=
    List.all_eq_true.mpr hcommon
  have hpair : (k, v) ∈ commonPairs (c0 :: rest) := by
    simp only [commonPairs]
    exact List.mem_filter.mpr ⟨hmem, hp⟩
  refine ⟨?_, ?_, ?_, fun t m => rfl⟩
  · simp only [commonCalls, commonPairs]
    exact filtered_calls_single c0.whereF _ k v hnd hmem hp
  · intro cv hcv e he heq
    obtain ⟨c, hc, rfl⟩ := List.mem_map.mp hcv
    have hfe := (List.mem_filter.mp he).2
    have hany : (commonPairs (c0 :: rest)).any (fun p => p.1 == e.1) = true :=
      List.any_eq_true.mpr ⟨(k, v), hpair, by simp [heq]⟩
    rw [hany] at hfe
    simp at hfe
  · intro hall
    simp only [orSection]
    rw [if_pos (List.all_eq_true.mpr (fun c' hc' => by rw [hall c' hc']; rfl))]

/-- C1 witness: branches `{status:"published", author:"A"}` OR
`{status:"published", author:"B"}` share the pair
`(status, "published")`, which compiles to the single shared `eq`. -/
theorem C1_witness :
    ((condPubA.whereF.map Prod.fst).Nodup
      ∧ ("status", Value.vstr "published") ∈ condPubA.whereF
      ∧ ∀ c ∈ [condPubA, condPubB],
          jsEq (jsGet c.whereF "status") (Value.vstr "published") = true)
    ∧ (commonCalls [condPubA, condPubB]).filter (colTargets "status")
        = [commonCallOf ("status", Value.vstr "published")]
    ∧ orSection [condPubA, condPubB] = [Call.orF "author.eq.\"A\",author.eq.\"B\""] := by
  refine ⟨⟨by decide, List.mem_cons_self _ _, by decide⟩, ?_, rfl⟩
  exact (C1_common_extraction condPubA [condPubB] "status" (Value.vstr "published")
    (by decide) (List.mem_cons_self _ _) (by decide)).1

/-- C2 counterexample: with branches `{where:{a:1}, is:{b:null}}` and
`{where:{a:1}}`, extraction leaves both residual `where` maps empty, so
compilation stops and emits no OR clause even though the first branch
still carries an `is` sub-condition — the claim's "stops exactly when
every residual equality map is empty AND no branch carries any other
sub-condition" is false at this input (the `is` condition is silently
dropped). -/
theorem C2_counterexample :
    orSection [condAIs, condA] = []
    ∧ applyOrConditions "posts" none [condAIs, condA]
        = [Call.select "*", Call.eq "a" (Value.vnum 1)]
    ∧ ([condAIs, condA].all noOtherSub) = false
    ∧ ((varyingConds [condAIs, condA]).all noOtherSub) = false :=
  ⟨rfl, rfl, rfl, rfl⟩

/-- C2 amended: multi-branch compilation emits no OR call exactly when
every branch's residual `where` map is empty — other sub-conditions are
not consulted by the stop check (and are dropped when it fires);
otherwise the varying branches (residual `where` plus `is`/`in`/`not`
sub-conditions; the comparison and pattern buckets are not carried into
the varying branches) are serialized, and the non-empty fragments are
applied as one `or` call. -/
theorem C2_or_emission (cs : List Cond) :
    (orSection cs = [] ↔ (varyingConds cs).all (fun c => c.whereF.isEmpty) = true)
    ∧ ((varyingConds cs).all (fun c => c.whereF.isEmpty) = false →
        orSection cs = [Call.orF (jsJoin ","
          (((varyingConds cs).map branchFrag).filter (fun s => s.length > 0)))]) := by
  have key : (varyingConds cs).all (fun c => c.whereF.isEmpty) = false →
      orSection cs = [Call.orF (jsJoin ","
        (((varyingConds cs).map branchFrag).filter (fun s => s.length > 0)))] := by
    intro hall
    have hex : ∃ c ∈ varyingConds cs, c.whereF ≠ [] := by
      by_contra hno
      push_neg at hno
      have : (varyingConds cs).all (fun c => c.whereF.isEmpty) = true :=
        List.all_eq_true.mpr (fun c hc => by rw [hno c hc]; rfl)
      rw [this] at hall
      cases hall
    obtain ⟨c, hc, hne⟩ := hex
    have hpos := branchFrag_length_pos c hne
    have hmemf : branchFrag c ∈
        ((varyingConds cs).map branchFrag).filter (fun s => s.length > 0) :=
      List.mem_filter.mpr ⟨List.mem_map.mpr ⟨c, hc, rfl⟩, decide_eq_true hpos⟩
    simp only [orSection]
    rw [if_neg (by simp [hall])]
    rw [if_pos (List.length_pos.mpr (List.ne_nil_of_mem hmemf))]
  refine ⟨⟨?_, ?_⟩, key⟩
  · intro h0
    by_contra hne
    rw [Bool.not_eq_true] at hne
    rw [key hne] at h0
    cases h0
  · intro hall
    simp only [orSection]
    rw [if_pos hall]

/-- C2 amended-claim witness: branches `{a:1, gt:{c:5}}` and `{b:2}` have
non-empty residual `where` maps, so one `or` call is emitted — and its
payload shows the first branch's comparison bucket was dropped. -/
theorem C2_witness :
    ((varyingConds [condAGt, condB]).all (fun c => c.whereF.isEmpty) = false)
    ∧ orSection [condAGt, condB]
        = [Call.orF (jsJoin "," (((varyingConds [condAGt, condB]).map branchFrag).filter
            (fun s => s.length > 0)))]
    ∧ orSection [condAGt, condB] = [Call.orF "a.eq.\"1\",b.eq.\"2\""] :=
  ⟨rfl, (C2_or_emission [condAGt, condB]).2 rfl, rfl⟩

/-- C3: at the failing inputs the code issues no IN (resp. IS) filter
call, contrary to the claim: the extraction writes the inline `in`/`is`
entry onto the condition object (visible in the returned mutated
condition), but the application fold is guarded by the stale destructured
local, which is still undefined when no dedicated map was supplied.
Supplying a dedicated — even empty — map makes the very same call appear. -/
theorem C3_inline_in_is_dropped :
    ((applyCondition "posts" none condInlineIn).1.countP isInCall = 0
      ∧ (applyCondition "posts" none condInlineIn).2.wherein
          = some [("status", Value.varr 1 [Value.vstr "draft", Value.vstr "published"])]
      ∧ (applyCondition "posts" none
          { condInlineIn with wherein := some [] }).1.countP isInCall = 1)
    ∧ ((applyCondition "posts" none condInlineIs).1.countP isIsCall = 0
      ∧ (applyCondition "posts" none condInlineIs).2.is
          = some [("published_at", Value.vnull)]
      ∧ (applyCondition "posts" none
          { condInlineIs with is := some [] }).1.countP isIsCall = 1) :=
  ⟨⟨rfl, rfl, rfl⟩, ⟨rfl, rfl, rfl⟩⟩

/-- C4: compilation is not idempotent.  Compiling the configuration once
issues no IN call but mutates the stored condition's `wherein`; compiling
the same chain value again then issues an IN call, so the two
compilations produce different call sequences. -/
theorem C4_compile_not_idempotent :
    (buildSupabaseQuery cfgInlineIn).1.countP isInCall = 0
    ∧ (buildSupabaseQuery (buildSupabaseQuery cfgInlineIn).2).1.countP isInCall = 1
    ∧ (buildSupabaseQuery cfgInlineIn).1
        ≠ (buildSupabaseQuery (buildSupabaseQuery cfgInlineIn).2).1 := by
  refine ⟨rfl, rfl, ?_⟩
  intro h
  have h0 : (0 : Nat) = 1 := by
    calc (0 : Nat) = (buildSupabaseQuery cfgInlineIn).1.countP isInCall := rfl
    _ = (buildSupabaseQuery (buildSupabaseQuery cfgInlineIn).2).1.countP isInCall := by
        rw [h]
    _ = 1 := rfl
  exact absurd h0 (by decide)

/-- C5 counterexample: with explicit `gt: {age: 5}` and inline bundle
`where: {age: {gt: 10}}`, the merged bucket maps `age` to the extracted
`10`, not the explicit `5` — the spread `{...gt, ...extracted}` lets the
extracted entry win, contradicting the claim. -/
theorem C5_counterexample :
    mergedGt condGtCollide = [("age", Value.vnum 10)]
    ∧ jsGet (mergedGt condGtCollide) "age" = Value.vnum 10
    ∧ (applyCondition "users" none condGtCollide).1.countP isGtCall = 1
    ∧ (applyCondition "users" none condGtCollide).1.get? 2
        = some (Call.gt "age" (Value.vnum 10))
    ∧ Value.vnum 10 ≠ Value.vnum 5 := by
  refine ⟨rfl, rfl, rfl, rfl, ?_⟩
  intro h
  injection h with h'
  exact absurd h' (by decide)

/-- C5 amended: on key collision the extracted operator entry wins: the
spread-merge used for all seven operator buckets takes the second
operand's value, so the merged `gt` bucket agrees with the extracted
bucket wherever the extracted bucket has the column. -/
theorem C5_extracted_wins (a b : Obj) (k : String) (c : Cond)
    (hnd : (b.map Prod.fst).Nodup) (hk : b.any (fun p => p.1 == k) = true)
    (hnd2 : ((extractedState c).exGt.map Prod.fst).Nodup)
    (hk2 : (extractedState c).exGt.any (fun p => p.1 == k) = true) :
    jsGet (mergeObj a b) k = jsGet b k
    ∧ jsGet (mergedGt c) k = jsGet (extractedState c).exGt k :=
  ⟨jsGet_mergeObj_right a b k hnd hk,
   jsGet_mergeObj_right (c.gt.getD []) (extractedState c).exGt k hnd2 hk2⟩

/-- C5 amended-claim witness at the collision input. -/
theorem C5_witness :
    (((extractedState condGtCollide).exGt.map Prod.fst).Nodup
      ∧ (extractedState condGtCollide).exGt.any (fun p => p.1 == "age") = true)
    ∧ jsGet (mergedGt condGtCollide) "age"
        = jsGet (extractedState condGtCollide).exGt "age" :=
  ⟨⟨by decide, by decide⟩,
   (C5_extracted_wins [] [("age", Value.vnull)] "age" condGtCollide
      (by decide) (by decide) (by decide) (by decide)).2⟩

/-- C6 counterexample: a set-but-zero `limit` is falsy in the source's
`if (limit && offset !== undefined)` chain, so `limit(0).offset(5)`
compiles to `range(5, MAX_SAFE_INTEGER)` instead of the claimed
`range(5, 5 + 0 - 1)`, and `limit(0)` alone issues no pagination call
instead of the claimed plain limit call. -/
theorem C6_counterexample :
    paginationCalls (some 0) (some 5) = [Call.range 5 maxSafeInteger]
    ∧ paginationCalls (some 0) (some 5) ≠ [Call.range 5 (5 + 0 - 1)]
    ∧ paginationCalls (some 0) none = []
    ∧ paginationCalls (some 0) none ≠ [Call.limit 0] := by
  refine ⟨rfl, ?_, rfl, ?_⟩
  · intro h
    rw [show paginationCalls (some 0) (some 5) = [Call.range 5 maxSafeInteger] from rfl] at h
    simp only [List.cons.injEq, Call.range.injEq, and_true, true_and] at h
    exact absurd h (by decide)
  · intro h
    rw [show paginationCalls (some 0) none = ([] : List Call) from rfl] at h
    cases h

/-- C6 amended: pagination is a function of the optional limit and offset
with a zero limit treated as absent — nonzero limit and offset compile to
`range [offset, offset+limit-1]`; nonzero limit alone to a `limit` call;
offset with no (or zero) limit to `range [offset, MAX_SAFE_INTEGER]`;
otherwise no pagination call.  The compiled sequence is the condition
section (which contains no pagination call) followed by the ordering
call, if any, followed by the pagination calls — so ordering precedes
pagination. -/
theorem C6_pagination (cfg : Config) :
    (∀ l o, cfg.limit = some l → l ≠ 0 → cfg.offset = some o →
        paginationCalls cfg.limit cfg.offset = [Call.range o (o + l - 1)])
    ∧ (∀ l, cfg.limit = some l → l ≠ 0 → cfg.offset = none →
        paginationCalls cfg.limit cfg.offset = [Call.limit l])
    ∧ (∀ o, cfg.offset = some o → (cfg.limit = none ∨ cfg.limit = some 0) →
        paginationCalls cfg.limit cfg.offset = [Call.range o maxSafeInteger])
    ∧ ((cfg.limit = none ∨ cfg.limit = some 0) → cfg.offset = none →
        paginationCalls cfg.limit cfg.offset = [])
    ∧ ((buildSupabaseQuery cfg).1 =
        [Call.fromTable cfg.schema cfg.table] ++ (conditionCalls cfg).1
          ++ orderCalls cfg.order ++ paginationCalls cfg.limit cfg.offset)
    ∧ (∀ call ∈ (conditionCalls cfg).1, isPageCall call = false) := by
  refine ⟨?_, ?_, ?_, ?_, rfl, conditionCalls_not_page cfg⟩
  · intro l o hl hlne ho
    rw [hl, ho]
    simp [paginationCalls, truthyNum, hlne]
  · intro l hl hlne ho
    rw [hl, ho]
    simp [paginationCalls, truthyNum, hlne]
  · intro o ho hl
    rcases hl with hl | hl <;> rw [hl, ho] <;> simp [paginationCalls, truthyNum]
  · intro hl ho
    rcases hl with hl | hl <;> rw [hl, ho] <;> simp [paginationCalls, truthyNum]

/-- C6 amended-claim witness: `limit(10).offset(20)` compiles to
`range(20, 29)`. -/
theorem C6_witness :
    cfgPage.limit = some 10 ∧ (10 : Int) ≠ 0 ∧ cfgPage.offset = some 20
    ∧ paginationCalls cfgPage.limit cfgPage.offset = [Call.range 20 29] := by
  refine ⟨rfl, by decide, rfl, ?_⟩
  have h := (C6_pagination cfgPage).1 10 20 rfl (by decide) rfl
  simpa using h

/-- C7: `first()` is `many()` plus taking the head: it performs exactly
`many()`'s backend interaction (list mode, same compiled calls — never a
single-row execution, unlike `one()`), its result equals mapping
head-taking over `many()`'s result, it propagates `many()`'s error
unchanged, returns `Ok none` on an empty list and `Ok (some head)`
otherwise. -/
theorem C7_first_refines_many {ε α : Type} (cfg : Config)
    (resp : Except ε (List α)) (f : Option (α → Bool)) :
    firstRequest cfg = manyRequest cfg
    ∧ (firstRequest cfg).mode = ExecMode.list
    ∧ (oneRequest cfg).mode = ExecMode.single
    ∧ runFirst resp f = firstSpec resp f
    ∧ (∀ e, resp = Except.error e → runFirst resp f = Except.error e)
    ∧ (runMany resp f = Except.ok [] → runFirst resp f = Except.ok none)
    ∧ (∀ x xs, runMany resp f = Except.ok (x :: xs) →
        runFirst resp f = Except.ok (some x)) := by
  refine ⟨rfl, rfl, rfl, ?_, ?_, ?_, ?_⟩
  · unfold runFirst firstSpec
    cases hr : runMany resp f with
    | error e => rfl
    | ok l => cases l with | nil => rfl | cons x xs => rfl
  · intro e he
    rw [he]
    rfl
  · intro h
    unfold runFirst
    rw [h]
    rfl
  · intro x xs h
    unfold runFirst
    rw [h]
    rfl

/-- C7 witness at concrete responses. -/
theorem C7_witness :
    firstRequest cfgPosts = manyRequest cfgPosts
    ∧ runFirst (Except.ok [1, 2] : Except String (List Nat)) none = Except.ok (some 1)
    ∧ runFirst (Except.ok ([] : List Nat) : Except String (List Nat)) none
        = Except.ok none
    ∧ runFirst (Except.error "boom" : Except String (List Nat)) none
        = Except.error "boom" := by
  refine ⟨(C7_first_refines_many cfgPosts
    (Except.ok [] : Except String (List Nat)) none).1, ?_, ?_, ?_⟩
  · exact (C7_first_refines_many cfgPosts (Except.ok [1, 2]) none).2.2.2.2.2.2 1 [2] rfl
  · exact (C7_first_refines_many cfgPosts (Except.ok []) none).2.2.2.2.2.1 rfl
  · exact (C7_first_refines_many cfgPosts (Except.error "boom") none).2.2.2.2.1 "boom" rfl

/-- C8: the throwing variants throw the unwrapped backend error whenever
the non-throwing counterpart errs; `oneOrThrow`/`firstOrThrow`
additionally throw the synthesized domain "not found" error exactly when
the counterpart resolved to an empty Option, and return the row
otherwise; `manyOrThrow` returns the counterpart's list unchanged
(including the empty list) and can never throw a "not found" error. -/
theorem C8_orThrow_semantics {ε α : Type} (table : String)
    (respOne : Except ε α) (respMany : Except ε (List α)) (f : Option (α → Bool)) :
    (∀ e, runOne respOne f = Except.error e →
        runOneOrThrow table respOne f = Except.error (Thrown.backend e))
    ∧ (runOne respOne f = Except.ok none →
        runOneOrThrow table respOne f
          = Except.error (Thrown.notFound ("No record found in " ++ table)))
    ∧ (∀ r, runOne respOne f = Except.ok (some r) →
        runOneOrThrow table respOne f = Except.ok r)
    ∧ (∀ e, runFirst respMany f = Except.error e →
        runFirstOrThrow table respMany f = Except.error (Thrown.backend e))
    ∧ (runFirst respMany f = Except.ok none →
        runFirstOrThrow table respMany f
          = Except.error (Thrown.notFound ("No records found in " ++ table)))
    ∧ (∀ r, runFirst respMany f = Except.ok (some r) →
        runFirstOrThrow table respMany f = Except.ok r)
    ∧ (∀ e, runMany respMany f = Except.error e →
        runManyOrThrow respMany f = Except.error (Thrown.backend e))
    ∧ (∀ l, runMany respMany f = Except.ok l →
        runManyOrThrow respMany f = Except.ok l)
    ∧ (∀ msg, runManyOrThrow respMany f ≠ Except.error (Thrown.notFound msg)) := by
  refine ⟨?_, ?_, ?_, ?_, ?_, ?_, ?_, ?_, ?_⟩
  · intro e h; unfold runOneOrThrow; rw [h]
  · intro h; unfold runOneOrThrow; rw [h]
  · intro r h; unfold runOneOrThrow; rw [h]
  · intro e h; unfold runFirstOrThrow; rw [h]
  · intro h; unfold runFirstOrThrow; rw [h]
  · intro r h; unfold runFirstOrThrow; rw [h]
  · intro e h; unfold runManyOrThrow; rw [h]
  · intro l h; unfold runManyOrThrow; rw [h]
  · intro msg h
    unfold runManyOrThrow at h
    cases hm : runMany respMany f with
    | error e => rw [hm] at h; simp at h
    | ok l => rw [hm] at h; simp at h

/-- C8 witness at concrete responses. -/
theorem C8_witness :
    runOneOrThrow "posts" (Except.ok 7 : Except String Nat) none = Except.ok 7
    ∧ runOneOrThrow "posts" (Except.ok 7 : Except String Nat)
        (some (fun _ => false))
        = Except.error (Thrown.notFound ("No record found in " ++ "posts"))
    ∧ runOneOrThrow "posts" (Except.error "down" : Except String Nat) none
        = Except.error (Thrown.backend "down")
    ∧ runManyOrThrow (Except.ok ([] : List Nat) : Except String (List Nat)) none
        = Except.ok []
    ∧ runFirstOrThrow "posts" (Except.ok ([] : List Nat) : Except String (List Nat)) none
        = Except.error (Thrown.notFound ("No records found in " ++ "posts")) := by
  refine ⟨?_, ?_, ?_, ?_, ?_⟩
  · exact (C8_orThrow_semantics "posts" (Except.ok 7)
      (Except.ok ([] : List Nat)) none).2.2.1 7 rfl
  · exact (C8_orThrow_semantics "posts" (Except.ok 7) (Except.ok ([] : List Nat))
      (some (fun _ => false))).2.1 rfl
  · exact (C8_orThrow_semantics "posts" (Except.error "down")
      (Except.ok ([] : List Nat)) none).1 "down" rfl
  · exact (C8_orThrow_semantics "posts" (Except.ok 7)
      (Except.ok ([] : List Nat)) none).2.2.2.2.2.2.2.1 [] rfl
  · exact (C8_orThrow_semantics "posts" (Except.ok 7)
      (Except.ok ([] : List Nat)) none).2.2.2.2.1 rfl

/-- C9: the claim is false for single-branch compilation: a dedicated
`wherein` map with an empty list still issues the membership call, with
the empty list passed through. -/
theorem C9_counterexample :
    (applyCondition "posts" none condEmptyIn).1
      = [Call.select "*", Call.matchEq [], Call.inF "tags" (Value.varr 0 [])]
    ∧ (applyCondition "posts" none condEmptyIn).1.countP isInCall = 1 :=
  ⟨rfl, rfl⟩

/-- C9 amended: in multi-branch OR fragments an in-condition with an
empty value list contributes no clause; in single-branch compilation,
when a dedicated `wherein` map is supplied and no inline bundle carries
an `in` key, one membership call is issued per entry of the map exactly
as given — empty lists included. -/
theorem C9_empty_in (k : String) (r : Nat) (c : Cond) (m : Obj)
    (hw : c.wherein = some m)
    (hno : ∀ e ∈ restOf c.whereF, entryHasInOp e = false) :
    whereinPart (k, Value.varr r []) = none
    ∧ inCallsOf c = m.map (fun e => Call.inF e.1 e.2)
    ∧ (∀ k2 r2, (k2, Value.varr r2 []) ∈ m →
        Call.inF k2 (Value.varr r2 []) ∈ inCallsOf c) := by
  have hst : (extractedState c).whereinSt = some m := by
    rw [extracted_whereinSt_pres c hno, hw]
  have h2 : inCallsOf c = m.map (fun e => Call.inF e.1 e.2) := by
    unfold inCallsOf
    rw [hw, hst]
    rfl
  refine ⟨rfl, h2, ?_⟩
  intro k2 r2 hm
  rw [h2]
  exact List.mem_map.mpr ⟨(k2, Value.varr r2 []), hm, rfl⟩

/-- C9 amended-claim witness: a `wherein` map holding an empty and a
non-empty list issues both membership calls, the empty one as-is. -/
theorem C9_witness :
    condTwoIn.wherein
      = some [("tags", Value.varr 0 []), ("role", Value.varr 1 [Value.vstr "admin"])]
    ∧ whereinPart ("tags", Value.varr 0 []) = none
    ∧ inCallsOf condTwoIn
        = [Call.inF "tags" (Value.varr 0 []), Call.inF "role" (Value.varr 1 [Value.vstr "admin"])]
    ∧ Call.inF "tags" (Value.varr 0 []) ∈ inCallsOf condTwoIn := by
  have h := C9_empty_in "tags" 0 condTwoIn
    [("tags", Value.varr 0 []), ("role", Value.varr 1 [Value.vstr "admin"])]
    rfl (fun e he => absurd he (List.not_mem_nil e))
  exact ⟨rfl, h.1, h.2.1, h.2.2 "tags" 0 (List.mem_cons_self _ _)⟩

/-- C10 counterexample: for `where: {active: {is: false}}` with no
dedicated `is` map, the bundle is kept in the batched `match` call and
the extracted `is` entry is recorded on the condition, but no `is` filter
call is issued — the claim's "applied as operator calls" fails for the
`{is: false}` example. -/
theorem C10_counterexample :
    (extractedState condIsFalse).processedWhere
      = [("active", Value.vobj 0 [("is", Value.vbool false)])]
    ∧ (applyCondition "users" none condIsFalse).1.countP isIsCall = 0
    ∧ (applyCondition "users" none condIsFalse).2.is
        = some [("active", Value.vbool false)] :=
  ⟨rfl, rfl, rfl⟩

/-- C10 amended: an equality-fields entry holding an inline bundle whose
present recognized operator values are all falsy is kept as a literal in
the batched `match` call AND its recognized comparison operators are
still extracted: the extracted `gt`/`neq` buckets carry the bundle's
value at that column, a `gt` call with the bundle's value is emitted
(`neq: null` emits the negated-IS call), while an extracted `is` entry is
applied only when a dedicated `is` map was supplied (none ⇒ no `is`
call section at all). -/
theorem C10_falsy_bundle (c : Cond) (k : String) (r : Nat) (fs : Obj)
    (hmem : (k, Value.vobj r fs) ∈ c.whereF)
    (hop : opKeys.contains k = false)
    (hnd : (c.whereF.map Prod.fst).Nodup)
    (hfal : allPresentFalsy fs = true) :
    (k, Value.vobj r fs) ∈ (extractedState c).processedWhere
    ∧ (∀ t m, (applyCondition t m c).1.get? 1
        = some (Call.matchEq (extractedState c).processedWhere))
    ∧ (opDefined fs "gt" = true → jsGet (extractedState c).exGt k = jsGet fs "gt")
    ∧ (opDefined fs "gt" = true →
        ((extractedState c).exGt.map Prod.fst).Nodup →
        ∀ t m, Call.gt k (jsGet fs "gt") ∈ (applyCondition t m c).1)
    ∧ (opDefined fs "neq" = true → jsGet (extractedState c).exNeq k = jsGet fs "neq")
    ∧ (jsGet fs "neq" = Value.vnull →
        ((extractedState c).exNeq.map Prod.fst).Nodup →
        ∀ t m, Call.notF k "is" Value.vnull ∈ (applyCondition t m c).1)
    ∧ (c.is = none → isCallsOf c = []) := by
  refine ⟨extracted_processedWhere_of_bundle c k r fs hmem hop hnd hfal,
    fun t m => rfl,
    fun hdef => extracted_exGt_of_bundle c k r fs hmem hop hnd hdef,
    ?_,
    fun hdef => extracted_exNeq_of_bundle c k r fs hmem hop hnd hdef,
    ?_, ?_⟩
  · intro hdef hnd2 t m
    have hval := extracted_exGt_of_bundle c k r fs hmem hop hnd hdef
    have hundef : isUndefinedV (jsGet fs "gt") = false := by
      unfold opDefined at hdef
      simpa using hdef
    have hkin : (extractedState c).exGt.any (fun p => p.1 == k) = true :=
      any_of_jsGet_ne_undef _ _ (by rw [hval]; exact hundef)
    have hmval : jsGet (mergedGt c) k = jsGet fs "gt" := by
      unfold mergedGt
      rw [jsGet_mergeObj_right _ _ k hnd2 hkin]
      exact hval
    have hmany : (mergedGt c).any (fun p => p.1 == k) = true :=
      any_of_jsGet_ne_undef _ _ (by rw [hmval]; exact hundef)
    have hmm : (k, jsGet fs "gt") ∈ mergedGt c := by
      have h0 := jsGet_mem (mergedGt c) k hmany
      rwa [hmval] at h0
    simp only [applyCondition]
    iterate 8 apply List.mem_append_left
    apply List.mem_append_right
    exact List.mem_map.mpr ⟨(k, jsGet fs "gt"), hmm, rfl⟩
  · intro hnull hnd2 t m
    have hdef : opDefined fs "neq" = true := by
      unfold opDefined
      rw [hnull]
      rfl
    have hval : jsGet (extractedState c).exNeq k = Value.vnull := by
      rw [extracted_exNeq_of_bundle c k r fs hmem hop hnd hdef, hnull]
    have hundef : isUndefinedV (Value.vnull) = false := rfl
    have hkin : (extractedState c).exNeq.any (fun p => p.1 == k) = true :=
      any_of_jsGet_ne_undef _ _ (by rw [hval]; exact hundef)
    have hmval : jsGet (mergedNeq c) k = Value.vnull := by
      unfold mergedNeq
      rw [jsGet_mergeObj_right _ _ k hnd2 hkin]
      exact hval
    have hmany : (mergedNeq c).any (fun p => p.1 == k) = true :=
      any_of_jsGet_ne_undef _ _ (by rw [hmval]; exact hundef)
    have hmm : (k, Value.vnull) ∈ mergedNeq c := by
      have h0 := jsGet_mem (mergedNeq c) k hmany
      rwa [hmval] at h0
    simp only [applyCondition]
    iterate 4 apply List.mem_append_left
    apply List.mem_append_right
    exact List.mem_map.mpr ⟨(k, Value.vnull), hmm, rfl⟩
  · intro h
    unfold isCallsOf
    rw [h]

/-- C10 amended-claim witness at `where: {n: {gt: 0}}`. -/
theorem C10_witness :
    ("n", Value.vobj 0 [("gt", Value.vnum 0)]) ∈ condGtZero.whereF
    ∧ opKeys.contains "n" = false
    ∧ allPresentFalsy [("gt", Value.vnum 0)] = true
    ∧ ("n", Value.vobj 0 [("gt", Value.vnum 0)]) ∈ (extractedState condGtZero).processedWhere
    ∧ Call.gt "n" (Value.vnum 0) ∈ (applyCondition "t" none condGtZero).1 := by
  have h := C10_falsy_bundle condGtZero "n" 0 [("gt", Value.vnum 0)]
    (List.mem_cons_self _ _) (by decide) (by decide) (by decide)
  refine ⟨List.mem_cons_self _ _, by decide, by decide, h.1, ?_⟩
  exact h.2.2.2.1 (by decide) (by decide) "t" none

end STQ
